import Mathlib

/-!
Verification of the audio-deduplication backend's core pipeline:
a shallow embedding of the upload admission path
(`upload.controller` / `upload.service` / `upload.utils`), the
similarity engine (`similarity.service`), the fingerprint job
(`fingerprint.service`) and the relevant database tables
(`audio_files`, `upload_attempts`, `similarity_warnings`), together
with theorems settling the specification's claims about them.

Machine reals (JS doubles) are modelled as exact rationals; machine
strings as Lean strings (lists of characters); the PostgreSQL tables
as lists of rows, with each SQL statement embedded as an atomic state
transformation (the uniqueness-constraint semantics of
`ON CONFLICT ... DO NOTHING` is modelled by an explicit membership
test, which is what the constraint enforces atomically).
-/

namespace AudioDedup

/-! ### Low-level helpers: JS whitespace trim, Node base64 decoding, popcount -/

/-- The whitespace characters removed by JavaScript `String.prototype.trim`
(ECMAScript WhiteSpace and LineTerminator code points). -/
def jsWhitespace : List Char :=
  [' ', '\t', '\n', '\x0b', '\x0c', '\r', '\u00A0', '\u1680',
   '\u2000', '\u2001', '\u2002', '\u2003', '\u2004', '\u2005', '\u2006',
   '\u2007', '\u2008', '\u2009', '\u200A', '\u2028', '\u2029', '\u202F',
   '\u205F', '\u3000', '\uFEFF']

def isJsWS (c : Char) : Bool := jsWhitespace.contains c

/-- `(s || '').trim()` on the character list: drop leading and trailing
whitespace. -/
def jsTrimL (l : List Char) : List Char :=
  ((l.dropWhile isJsWS).reverse.dropWhile isJsWS).reverse

def jsTrim (s : String) : String := ⟨jsTrimL s.data⟩

/-- Value of one character in Node's base64 alphabet (`unbase64_table`):
both the standard and the url-safe alphabets are accepted; any other
character is invalid. -/
def b64Val (c : Char) : Option Nat :=
  if 'A' ≤ c ∧ c ≤ 'Z' then some (c.toNat - 65)
  else if 'a' ≤ c ∧ c ≤ 'z' then some (c.toNat - 71)
  else if '0' ≤ c ∧ c ≤ '9' then some (c.toNat + 4)
  else if c = '+' ∨ c = '-' then some 62
  else if c = '/' ∨ c = '_' then some 63
  else none

/-- Node `Buffer.from(s, 'base64')`: scan the characters accumulating
6-bit groups, skipping characters outside the alphabet and stopping at
the first `=`; emit a byte whenever 8 bits are available.  `acc` holds
`nbits` pending bits, `nbits < 8`. -/
def b64Aux : List Char → Nat → Nat → List Nat
  | [], _, _ => []
  | c :: rest, acc, nbits =>
    if c = '=' then []
    else
      match b64Val c with
      | none => b64Aux rest acc nbits
      | some v =>
        let acc2 := acc * 64 + v
        if 8 ≤ nbits + 6 then
          (acc2 / 2 ^ (nbits - 2)) :: b64Aux rest (acc2 % 2 ^ (nbits - 2)) (nbits - 2)
        else
          b64Aux rest acc2 (nbits + 6)

def b64Decode (s : String) : List Nat := b64Aux s.data 0 0

/-- The bit-counting loop `while (xor) { distance += xor & 1; xor >>= 1 }`,
with explicit fuel so that it is structurally recursive (the argument
itself bounds the number of iterations, since the value shrinks by at
least one per halving). -/
def popcountAux : Nat → Nat → Nat
  | 0, _ => 0
  | fuel + 1, n => if n = 0 then 0 else n % 2 + popcountAux fuel (n / 2)

def popcount (n : Nat) : Nat := popcountAux n n

/-! ### Similarity engine (`similarity.service.js`) -/

/-- `hammingDistance(a, b)`: trim both inputs; if either trims to the
empty string the distance is `Infinity` (modelled as `none`); otherwise
base64-decode both and return `|len1 − len2| * 8` plus the popcount of
the bytewise XOR over the common prefix.  (Node's base64 decoding never
throws, so the `catch` branch of the source is unreachable.) -/
def hammingDistance (a b : String) : Option Nat :=
  let fp1 := jsTrim a
  let fp2 := jsTrim b
  if fp1 = "" ∨ fp2 = "" then none
  else
    let bin1 := b64Decode fp1
    let bin2 := b64Decode fp2
    some (((bin1.length : Int) - (bin2.length : Int)).natAbs * 8 +
      (List.zipWith (fun x y => popcount (x ^^^ y)) bin1 bin2).sum)

/-- `Math.max(fingerprint.length, row.perceptual_hash.length) * 6` —
taken over the raw (untrimmed) encoded strings. -/
def maxBits (a b : String) : Nat := max a.length b.length * 6

/-- `((maxBits - distance) / maxBits) * 100` in exact rational
arithmetic (division by zero yields 0, matching the fact that the JS
NaN/−Infinity results never pass the threshold test). -/
def pctOf (mb d : Nat) : ℚ := ((mb : ℚ) - (d : ℚ)) / (mb : ℚ) * 100

/-- The similarity percentage the engine computes for a pair, when the
distance is finite. -/
def simPercentQ (a b : String) : Option ℚ :=
  (hammingDistance a b).map (pctOf (maxBits a b))

/-- `similarityPercent >= SIMILARITY_THRESHOLD` with
`SIMILARITY_THRESHOLD = 70`; an infinite distance compares below any
threshold. -/
def matchB (a b : String) : Bool :=
  match hammingDistance a b with
  | none => false
  | some d => decide (70 ≤ pctOf (maxBits a b) d)

/-- The percentage value used on the match path (where the distance is
known finite). -/
def pctD (a b : String) : ℚ := pctOf (maxBits a b) ((hammingDistance a b).getD 0)

/-- `x.toFixed(2)` on a nonnegative number: round to two decimals,
ties upward.  (`Rat.floor` is the same function as `Int.floor` on `ℚ`
and is used so the definition evaluates by kernel reduction.) -/
def round2 (q : ℚ) : ℚ := ((Rat.floor (q * 100 + 1 / 2) : ℤ) : ℚ) / 100

/-- The distance formula exactly as the specification words it:
absolute difference of the decoded byte-lengths times 8, plus the
popcount of the bitwise XOR over the overlapping decoded byte prefix —
with the transport decoding applied to the strings as given. -/
def specDistance (a b : String) : Nat :=
  let bin1 := b64Decode a
  let bin2 := b64Decode b
  (((bin1.length : Int) - (bin2.length : Int)).natAbs) * 8 +
    (List.zipWith (fun x y => popcount (x ^^^ y)) bin1 bin2).sum

/-- A row of the `similarity_warnings` table. -/
structure WRow where
  audio_id_a : Nat
  audio_id_b : Nat
  filename_a : String
  filename_b : String
  similarity_percent : ℚ
deriving DecidableEq

/-- One candidate returned by
`SELECT id, perceptual_hash, original_filename FROM audio_files WHERE
id != $1 AND perceptual_hash IS NOT NULL`. -/
structure CandRow where
  id : Nat
  perceptual_hash : String
  original_filename : String
deriving DecidableEq

/-- The value returned by `findSimilar` on a match. -/
structure MatchRes where
  id : Nat
  filename : String
  similarity : ℚ
deriving DecidableEq

/-- `INSERT INTO similarity_warnings ... ON CONFLICT (audio_id_a,
audio_id_b) DO NOTHING`: the `UNIQUE(audio_id_a, audio_id_b)`
constraint deduplicates on the ordered pair. -/
def insertWarning (ws : List WRow) (w : WRow) : List WRow :=
  if ws.any (fun r => r.audio_id_a == w.audio_id_a && r.audio_id_b == w.audio_id_b) then ws
  else ws ++ [w]

/-- The body of `findSimilar`: scan the candidates in order; on the
first whose similarity reaches the threshold, persist a warning (with
the percentage rounded to two decimals) and return it; otherwise
return `null`.  The warning store is threaded explicitly. -/
def findSimilar (audioId : Nat) (fingerprint filename : String) :
    List CandRow → List WRow → List WRow × Option MatchRes
  | [], ws => (ws, none)
  | c :: rest, ws =>
    if matchB fingerprint c.perceptual_hash then
      let v := round2 (pctD fingerprint c.perceptual_hash)
      (insertWarning ws ⟨audioId, c.id, filename, c.original_filename, v⟩,
        some ⟨c.id, c.original_filename, v⟩)
    else
      findSimilar audioId fingerprint filename rest ws

/-! ### Upload pipeline (`upload.utils.js`, `upload.service.js`,
`upload.controller.js`, `schema.sql`) -/

/-- The fields of a Multer file object that the pipeline reads. -/
structure FileInfo where
  content : List Nat
  originalname : String
  mimetype : String
  size : Nat
deriving DecidableEq

/-- A row of `audio_files`. -/
structure ARow where
  id : Nat
  content_hash : String
  storage_path : String
  original_filename : String
  file_size : Nat
  mime_type : String
  perceptual_hash : Option String
  duration_seconds : Option ℚ
  similarity_status : String
deriving DecidableEq

/-- A row of `upload_attempts`. -/
structure Attempt where
  content_hash : String
  was_duplicate : Bool
deriving DecidableEq

/-- The persistent state the pipeline touches: the three tables and the
two storage buckets. -/
structure Sys where
  audio_files : List ARow
  upload_attempts : List Attempt
  similarity_warnings : List WRow
  temp_bucket : List (String × List Nat)
  perm_bucket : List (String × List Nat)
deriving DecidableEq

/-- The JSON value `processUpload` resolves with. -/
structure UploadResult where
  duplicate : Bool
  audioId : Option Nat
deriving DecidableEq

/-- `isSupportedAudio` from `upload.utils.js`: the fixed MIME allow-list. -/
def isSupportedAudio (mimeType : String) : Bool :=
  ["audio/mpeg", "audio/wav", "audio/ogg", "audio/m4a", "audio/aac", "audio/flac",
   "audio/x-wav", "audio/x-ogg", "audio/x-m4a", "audio/x-aac", "audio/x-flac",
   "audio/x-mpeg"].contains mimeType

/-- `processUpload(file)`: compute the content digest of the bytes
(`computeFileHash` streams the file content through SHA-256, an
external primitive passed in as `sha` — only that it is a function of
the byte stream alone is used); upload to the temp bucket; atomically
`INSERT ... ON CONFLICT (content_hash) DO NOTHING`; on conflict delete
the temp object, record a duplicate attempt and report
`{duplicate: true}`; otherwise move the object to the permanent
bucket, record the attempt and report `{duplicate: false, audioId}`.
`freshId` models `gen_random_uuid()` for the new row and `tempUuid`
the `crypto.randomUUID()` component of the temp object name. -/
def processUpload (sha : List Nat → String) (freshId : Nat) (tempUuid : String)
    (file : FileInfo) (s : Sys) : UploadResult × Sys :=
  let contentHash := sha file.content
  let tempFileName := tempUuid ++ "_" ++ file.originalname
  let permanentFileName := contentHash ++ "_" ++ file.originalname
  let s1 : Sys := { s with temp_bucket := s.temp_bucket ++ [(tempFileName, file.content)] }
  if s1.audio_files.any (fun r => r.content_hash == contentHash) then
    let s2 : Sys := { s1 with
      temp_bucket := s1.temp_bucket.filter (fun p => p.1 ≠ tempFileName),
      upload_attempts := s1.upload_attempts ++ [⟨contentHash, true⟩] }
    (⟨true, none⟩, s2)
  else
    let row : ARow :=
      ⟨freshId, contentHash, permanentFileName, file.originalname, file.size,
        file.mimetype, none, none, "pending"⟩
    let s2 : Sys := { s1 with
      audio_files := s1.audio_files ++ [row],
      temp_bucket := s1.temp_bucket.filter (fun p => p.1 ≠ tempFileName),
      perm_bucket := s1.perm_bucket ++ [(permanentFileName, file.content)],
      upload_attempts := s1.upload_attempts ++ [⟨contentHash, false⟩] }
    (⟨false, some freshId⟩, s2)

/-- `uploadAudio(req, res)` from the upload controller: missing file →
400; unsupported MIME type → 400 before anything else runs; otherwise
delegate to `processUpload` and answer 409 on a duplicate, 201 on an
accepted upload. -/
def uploadAudio (sha : List Nat → String) (freshId : Nat) (tempUuid : String)
    (file : Option FileInfo) (s : Sys) : Nat × Option UploadResult × Sys :=
  match file with
  | none => (400, none, s)
  | some f =>
    if isSupportedAudio f.mimetype then
      let rs := processUpload sha freshId tempUuid f s
      if rs.1.duplicate then (409, some rs.1, rs.2) else (201, some rs.1, rs.2)
    else (400, none, s)

/-- One upload call of a concurrent batch: its fresh row id, its fresh
temp-name component, and the submitted file. -/
structure UploadCall where
  freshId : Nat
  tempUuid : String
  file : FileInfo

/-- A serialization of a batch of `processUpload` calls.  The only
contended step of `processUpload` is the single atomic
`INSERT ... ON CONFLICT` statement, so every concurrent execution is
observationally equivalent (for results and table contents) to running
the calls in the serialization order the database gives their inserts;
quantifying over the list order quantifies over that serialization. -/
def runUploads (sha : List Nat → String) :
    List UploadCall → Sys → List UploadResult × Sys
  | [], s => ([], s)
  | c :: rest, s =>
    let rs := processUpload sha c.freshId c.tempUuid c.file s
    let rest2 := runUploads sha rest rs.2
    (rs.1 :: rest2.1, rest2.2)

/-! ### Fingerprint job (`fingerprint.service.js`) -/

/-- Outcome of the `execFile(fpcalcPath, ...)` call: the subprocess
errored, or produced `stdout`. -/
inductive ExecResult where
  | fail : ExecResult
  | ok : String → ExecResult

/-- Parsing of fpcalc's stdout inside `runFpcalc`: split into lines,
find the `FINGERPRINT=` line (reject if absent), take the text after
the first `=`; the `DURATION=` line, if present, is parsed with JS
`parseFloat`, passed in as the external primitive `parseFloatFn`. -/
def parseFpcalcOut (parseFloatFn : String → ℚ) (stdout : String) :
    Option (String × Option ℚ) :=
  let lines := stdout.splitOn "\n"
  match lines.find? (fun l => l.startsWith "FINGERPRINT=") with
  | none => none
  | some fingerprintLine =>
    let fingerprint := (fingerprintLine.splitOn "=").getD 1 ""
    let duration := (lines.find? (fun l => l.startsWith "DURATION=")).map
      (fun l => parseFloatFn ((l.splitOn "=").getD 1 ""))
    some (fingerprint, duration)

/-- `runFpcalc`: rejects when the subprocess errors or when no
`FINGERPRINT=` line is produced. -/
def runFpcalcM (parseFloatFn : String → ℚ) (exec : ExecResult) :
    Option (String × Option ℚ) :=
  match exec with
  | .fail => none
  | .ok stdout => parseFpcalcOut parseFloatFn stdout

/-- `UPDATE audio_files SET ... WHERE id=$n`. -/
def updateRow (s : Sys) (audioId : Nat) (f : ARow → ARow) : Sys :=
  { s with audio_files := s.audio_files.map (fun r => if r.id = audioId then f r else r) }

/-- `process(audioId)`: fetch the row; run the fingerprint extractor;
on success store the fingerprint, duration and `processed` status, scan
the other fingerprinted rows for a similar one, and on a match record
the warning and set `similar_found`; any earlier failure throws
(second component `some errorMessage`) with every mutation up to that
point — none — already applied. -/
def processJob (parseFloatFn : String → ℚ) (exec : ExecResult) (audioId : Nat)
    (s : Sys) : Sys × Option String :=
  match s.audio_files.find? (fun r => r.id == audioId) with
  | none => (s, some "Audio not found")
  | some row =>
    match runFpcalcM parseFloatFn exec with
    | none => (s, some "Fingerprint not generated")
    | some fd =>
      let s1 := updateRow s audioId (fun r =>
        { r with perceptual_hash := some fd.1, duration_seconds := fd.2,
                 similarity_status := "processed" })
      let cands := s1.audio_files.filterMap (fun r =>
        if r.id ≠ audioId then
          r.perceptual_hash.map (fun h => CandRow.mk r.id h r.original_filename)
        else none)
      let wr := findSimilar audioId fd.1 row.original_filename cands s1.similarity_warnings
      let s2 : Sys := { s1 with similarity_warnings := wr.1 }
      match wr.2 with
      | some _ => (updateRow s2 audioId (fun r => { r with similarity_status := "similar_found" }), none)
      | none => (s2, none)

/-! ### Helper lemmas -/

attribute [local semireducible] Rat.add Rat.sub Rat.mul Rat.inv

lemma ratFloor_eq_intFloor (q : ℚ) : (Rat.floor q : ℤ) = ⌊q⌋ := by
  rw [Rat.floor_def' q, Rat.floor_def]

lemma mem_insertWarning {ws : List WRow} {w w0 : WRow} (h : w ∈ insertWarning ws w0) :
    w ∈ ws ∨ w = w0 := by
  unfold insertWarning at h
  split at h
  · exact Or.inl h
  · simpa using h

lemma ws_not_b64 : ∀ c ∈ jsWhitespace, b64Val c = none ∧ c ≠ '=' := by decide

lemma isJsWS_mem {c : Char} (h : isJsWS c = true) : c ∈ jsWhitespace := by
  simpa [isJsWS] using h

lemma b64Aux_cons_ws {c : Char} (t : List Char) (acc n : Nat) (h : isJsWS c = true) :
    b64Aux (c :: t) acc n = b64Aux t acc n := by
  obtain ⟨hv, he⟩ := ws_not_b64 c (isJsWS_mem h)
  simp [b64Aux, he, hv]

lemma b64Aux_dropWhile (l : List Char) : ∀ acc n,
    b64Aux (l.dropWhile isJsWS) acc n = b64Aux l acc n := by
  induction l with
  | nil => intro acc n; rfl
  | cons c t ih =>
    intro acc n
    by_cases h : isJsWS c
    · have hdw : (c :: t).dropWhile isJsWS = t.dropWhile isJsWS := by
        simp [List.dropWhile_cons, h]
      rw [hdw, ih, b64Aux_cons_ws t acc n h]
    · have hdw : (c :: t).dropWhile isJsWS = c :: t := by
        simp [List.dropWhile_cons, h]
      rw [hdw]

lemma b64Aux_all_ws : ∀ (l : List Char), (∀ c ∈ l, isJsWS c = true) →
    ∀ acc n, b64Aux l acc n = [] := by
  intro l
  induction l with
  | nil => intro _ acc n; rfl
  | cons c t ih =>
    intro hall acc n
    rw [b64Aux_cons_ws t acc n (hall c (by simp))]
    exact ih (fun x hx => hall x (by simp [hx])) acc n

lemma b64Aux_append_ws (suffix : List Char) (hs : ∀ c ∈ suffix, isJsWS c = true) :
    ∀ (l : List Char) (acc n : Nat), b64Aux (l ++ suffix) acc n = b64Aux l acc n := by
  intro l
  induction l with
  | nil => intro acc n; simpa using b64Aux_all_ws suffix hs acc n
  | cons c t ih =>
    intro acc n
    by_cases he : c = '='
    · simp [b64Aux, he]
    · cases hv : b64Val c with
      | none => simp [b64Aux, he, hv, ih]
      | some v => simp [b64Aux, he, hv, ih]

/-- Trimming does not change the decoded bytes: every trimmed-off
whitespace character is outside the base64 alphabet (hence skipped by
the decoder) and is not the terminator `=`. -/
lemma b64Decode_trim (s : String) : b64Decode (jsTrim s) = b64Decode s := by
  show b64Aux (jsTrimL s.data) 0 0 = b64Aux s.data 0 0
  unfold jsTrimL
  set m := s.data.dropWhile isJsWS with hm
  have hsplit : m.reverse.takeWhile isJsWS ++ m.reverse.dropWhile isJsWS = m.reverse :=
    List.takeWhile_append_dropWhile isJsWS m.reverse
  have hdecomp : (m.reverse.dropWhile isJsWS).reverse ++ (m.reverse.takeWhile isJsWS).reverse
      = m := by
    rw [← List.reverse_append, hsplit, List.reverse_reverse]
  have hws : ∀ c ∈ (m.reverse.takeWhile isJsWS).reverse, isJsWS c = true := by
    intro c hc
    exact List.mem_takeWhile_imp (List.mem_reverse.mp hc)
  calc b64Aux ((m.reverse.dropWhile isJsWS).reverse) 0 0
      = b64Aux ((m.reverse.dropWhile isJsWS).reverse ++ (m.reverse.takeWhile isJsWS).reverse)
          0 0 := (b64Aux_append_ws _ hws _ 0 0).symm
    _ = b64Aux m 0 0 := by rw [hdecomp]
    _ = b64Aux s.data 0 0 := by rw [hm]; exact b64Aux_dropWhile s.data 0 0

lemma zipPop_comm : ∀ (x y : List Nat),
    List.zipWith (fun a b => popcount (a ^^^ b)) x y =
      List.zipWith (fun a b => popcount (a ^^^ b)) y x := by
  intro x
  induction x with
  | nil => intro y; cases y <;> simp
  | cons a t ih =>
    intro y
    cases y with
    | nil => simp
    | cons b u => simp [Nat.xor_comm a b, ih u]

lemma hammingDistance_symm (a b : String) : hammingDistance a b = hammingDistance b a := by
  unfold hammingDistance
  by_cases h1 : jsTrim a = "" <;> by_cases h2 : jsTrim b = "" <;> simp [h1, h2]
  rw [zipPop_comm]
  have habs : ∀ m n : Int, (m - n).natAbs = (n - m).natAbs := by
    intro m n
    rw [← Int.natAbs_neg, neg_sub]
  rw [habs]

lemma maxBits_symm (a b : String) : maxBits a b = maxBits b a := by
  simp [maxBits, Nat.max_comm]

/-! ### Claims -/

/-- C8: an upload whose declared MIME type is outside the fixed
allow-list is answered with status 400 before the digest is computed
and before any table or bucket is touched: the controller returns with
the system state unchanged. -/
theorem c8_unsupported_mime_rejected (sha : List Nat → String) (freshId : Nat)
    (tempUuid : String) (f : FileInfo) (s : Sys)
    (h : isSupportedAudio f.mimetype = false) :
    uploadAudio sha freshId tempUuid (some f) s = (400, none, s) := by
  simp [uploadAudio, h]

theorem c8_unsupported_mime_rejected_witness :
    isSupportedAudio "text/plain" = false ∧
    uploadAudio (fun _ => "d") 7 "t" (some ⟨[1, 2], "a.txt", "text/plain", 2⟩)
        ⟨[], [], [], [], []⟩ =
      (400, none, ⟨[], [], [], [], []⟩) :=
  ⟨by decide,
   c8_unsupported_mime_rejected (fun _ => "d") 7 "t" ⟨[1, 2], "a.txt", "text/plain", 2⟩
     ⟨[], [], [], [], []⟩ (by decide)⟩

/-- C7: when fingerprint extraction fails (the subprocess errors, or
its output has no `FINGERPRINT=` line), the analysis job performs no
write at all: the whole database state — in particular the artifact's
`perceptual_hash` (still null), its `similarity_status` (still
`pending`) and the warning table — is returned unchanged, and the job
ends in an error that never reaches the uploader. -/
theorem c7_extractor_failure_fail_open (parseFloatFn : String → ℚ)
    (exec : ExecResult) (audioId : Nat) (s : Sys)
    (h : runFpcalcM parseFloatFn exec = none) :
    (processJob parseFloatFn exec audioId s).1 = s ∧
    ((processJob parseFloatFn exec audioId s).2).isSome = true := by
  unfold processJob
  cases hf : s.audio_files.find? (fun r => r.id == audioId) <;> simp [h]

theorem c7_extractor_failure_fail_open_witness :
    (processJob (fun _ => 0) ExecResult.fail 1
        ⟨[⟨1, "h", "p", "f", 1, "audio/mpeg", none, none, "pending"⟩], [], [], [], []⟩).1 =
      ⟨[⟨1, "h", "p", "f", 1, "audio/mpeg", none, none, "pending"⟩], [], [], [], []⟩ ∧
    ((processJob (fun _ => 0) ExecResult.fail 1
        ⟨[⟨1, "h", "p", "f", 1, "audio/mpeg", none, none, "pending"⟩], [], [], [], []⟩).2).isSome = true :=
  c7_extractor_failure_fail_open (fun _ => 0) ExecResult.fail 1
    ⟨[⟨1, "h", "p", "f", 1, "audio/mpeg", none, none, "pending"⟩], [], [], [], []⟩ rfl

/-- C6 is false on the code: `hammingDistance` returns `Infinity` only
when a *string* is blank, not when it *decodes* to nothing.  The
string `"!"` decodes to the empty byte sequence, yet the pair
`("!", "!")` gets the finite distance 0 and is classified as a match
(similarity 100%). -/
theorem c6_counterexample :
    b64Decode "!" = [] ∧ hammingDistance "!" "!" = some 0 ∧ matchB "!" "!" = true := by
  decide

/-- C6 (amended): the computed distance is infinite exactly when at
least one of the two strings is empty after trimming whitespace; a
non-blank string that decodes to an empty byte sequence yields a
finite distance (and such a pair can still be classified as a match). -/
theorem c6_infinite_iff_blank (a b : String) :
    hammingDistance a b = none ↔ (jsTrim a = "" ∨ jsTrim b = "") := by
  by_cases h : jsTrim a = "" ∨ jsTrim b = "" <;> simp [hammingDistance, h]

/-- C2 is false on the code: the `similarity_warnings` uniqueness
constraint is on the *ordered* pair `(audio_id_a, audio_id_b)`, so
inserting the reversed orientation of an existing pair is not
deduplicated — after inserting `(1, 2)` and then `(2, 1)` the store
holds two rows for the unordered pair `{1, 2}`. -/
theorem c2_counterexample :
    (insertWarning (insertWarning [] ⟨1, 2, "a", "b", 80⟩) ⟨2, 1, "b", "a", 80⟩).countP
        (fun r => (r.audio_id_a == 1 && r.audio_id_b == 2) ||
          (r.audio_id_a == 2 && r.audio_id_b == 1)) = 2 := by
  decide

/-- C2 (amended): the store keeps at most one warning per *ordered*
pair: re-inserting a warning with the same orientation
`(audio_id_a, audio_id_b)` is a no-op, not an error, and the
at-most-one-row-per-ordered-pair invariant is preserved by every
insert. -/
theorem c2_ordered_pair_idempotent :
    (∀ (ws : List WRow) (w w' : WRow),
       w'.audio_id_a = w.audio_id_a → w'.audio_id_b = w.audio_id_b →
       insertWarning (insertWarning ws w) w' = insertWarning ws w) ∧
    (∀ (ws : List WRow) (w : WRow),
       (∀ x y, ws.countP (fun r => r.audio_id_a == x && r.audio_id_b == y) ≤ 1) →
       ∀ x y, (insertWarning ws w).countP
         (fun r => r.audio_id_a == x && r.audio_id_b == y) ≤ 1) := by
  constructor
  · intro ws w w' ha hb
    unfold insertWarning
    by_cases h : ws.any (fun r => r.audio_id_a == w.audio_id_a && r.audio_id_b == w.audio_id_b)
    · simp [h, ha, hb]
    · simp [h, ha, hb, List.any_append]
  · intro ws w hinv x y
    unfold insertWarning
    by_cases h : ws.any (fun r => r.audio_id_a == w.audio_id_a && r.audio_id_b == w.audio_id_b) = true
    · simpa [h] using hinv x y
    · rw [if_neg h, List.countP_append]
      cases hb : (w.audio_id_a == x && w.audio_id_b == y) with
      | false =>
        have : ([w].countP (fun r => r.audio_id_a == x && r.audio_id_b == y)) = 0 := by
          simp [List.countP_cons, hb]
        rw [this]
        simpa using hinv x y
      | true =>
        obtain ⟨hx, hy⟩ : w.audio_id_a = x ∧ w.audio_id_b = y := by
          simpa using hb
        subst hx
        subst hy
        have h0 : ws.countP
            (fun r => r.audio_id_a == w.audio_id_a && r.audio_id_b == w.audio_id_b) = 0 := by
          rw [List.countP_eq_zero]
          intro r hr hc
          exact h (List.any_eq_true.mpr ⟨r, hr, hc⟩)
        simp [List.countP_cons, h0]

theorem c2_ordered_pair_idempotent_witness :
    insertWarning (insertWarning [] ⟨1, 2, "a", "b", 80⟩) ⟨1, 2, "c", "d", 90⟩ =
      insertWarning [] ⟨1, 2, "a", "b", 80⟩ :=
  c2_ordered_pair_idempotent.1 [] ⟨1, 2, "a", "b", 80⟩ ⟨1, 2, "c", "d", 90⟩ rfl rfl

/-- C3: for strings that do not trim to empty (the case the distance
is defined for), the computed distance equals the specification's
formula — absolute difference of decoded byte-lengths × 8 plus the
popcount of the XOR over the overlapping decoded prefix — `maxBits` is
`max` of the *encoded string* lengths × 6, and the similarity
percentage is `(maxBits − distance) / maxBits × 100`. -/
theorem c3_distance_normalization (a b : String)
    (ha : jsTrim a ≠ "") (hb : jsTrim b ≠ "") :
    hammingDistance a b = some (specDistance a b) ∧
    maxBits a b = max a.length b.length * 6 ∧
    simPercentQ a b =
      some (((maxBits a b : ℚ) - (specDistance a b : ℚ)) / (maxBits a b : ℚ) * 100) := by
  have hd : hammingDistance a b = some (specDistance a b) := by
    unfold hammingDistance specDistance
    simp [ha, hb, b64Decode_trim]
  exact ⟨hd, rfl, by simp [simPercentQ, hd, pctOf]⟩

theorem c3_distance_normalization_witness :
    hammingDistance "abc" "AB" = some (specDistance "abc" "AB") ∧
    maxBits "abc" "AB" = max "abc".length "AB".length * 6 ∧
    simPercentQ "abc" "AB" =
      some (((maxBits "abc" "AB" : ℚ) - (specDistance "abc" "AB" : ℚ)) /
        (maxBits "abc" "AB" : ℚ) * 100) :=
  c3_distance_normalization "abc" "AB" (by decide) (by decide)

/-- C4: the scan returns the *first* candidate in scan order whose
similarity reaches the threshold — characterized by `List.find?`, so
no later candidate influences the result and `none` is returned
exactly when no candidate is at or above threshold — and the match
test is exactly `similarityPercent ≥ 70`, so a pair at 70.00% matches
and one below 70 (e.g. 69.99%) does not. -/
theorem c4_first_match_threshold :
    (∀ (audioId : Nat) (fp fn : String) (cands : List CandRow) (ws : List WRow),
      (findSimilar audioId fp fn cands ws).2 =
        (cands.find? (fun c => matchB fp c.perceptual_hash)).map
          (fun c => ⟨c.id, c.original_filename, round2 (pctD fp c.perceptual_hash)⟩)) ∧
    (∀ (a b : String) (q : ℚ), simPercentQ a b = some q → (matchB a b = true ↔ 70 ≤ q)) := by
  constructor
  · intro audioId fp fn cands ws
    induction cands generalizing ws with
    | nil => simp [findSimilar]
    | cons c rest ih =>
      by_cases h : matchB fp c.perceptual_hash
      · simp [findSimilar, h, List.find?_cons_of_pos]
      · simp [findSimilar, h, List.find?_cons_of_neg, ih]
  · intro a b q hq
    unfold simPercentQ at hq
    cases hd : hammingDistance a b with
    | none => rw [hd] at hq; simp at hq
    | some d =>
      rw [hd] at hq
      simp at hq
      unfold matchB
      rw [hd]
      simp [hq]

theorem c4_first_match_threshold_witness :
    simPercentQ "AAAAAAAAAA" "//8DAAAAAA" = some 70 ∧
    (matchB "AAAAAAAAAA" "//8DAAAAAA" = true ↔ 70 ≤ (70 : ℚ)) :=
  ⟨by decide, c4_first_match_threshold.2 "AAAAAAAAAA" "//8DAAAAAA" 70 (by decide)⟩

/-- C5: the similarity computation is symmetric in its two fingerprint
arguments: the distance, the `maxBits` normalization, and hence the
similarity percentage are unchanged when subject and candidate are
swapped. -/
theorem c5_similarity_symmetric (a b : String) :
    hammingDistance a b = hammingDistance b a ∧
    maxBits a b = maxBits b a ∧
    simPercentQ a b = simPercentQ b a :=
  ⟨hammingDistance_symm a b, maxBits_symm a b, by
    simp [simPercentQ, hammingDistance_symm a b, maxBits_symm a b]⟩

lemma pctOf_le_100 (mb d : Nat) : pctOf mb d ≤ 100 := by
  unfold pctOf
  rcases Nat.eq_zero_or_pos mb with h | h
  · simp [h]
  · have hmb : (0 : ℚ) < mb := by exact_mod_cast h
    have hd0 : (0 : ℚ) ≤ d := by positivity
    have h1 : ((mb : ℚ) - d) / mb ≤ 1 := by
      rw [div_le_one hmb]
      linarith
    calc ((mb : ℚ) - d) / mb * 100 ≤ 1 * 100 :=
          mul_le_mul_of_nonneg_right h1 (by norm_num)
      _ = 100 := by norm_num

lemma matchB_spec {a b : String} (h : matchB a b = true) :
    70 ≤ pctD a b ∧ pctD a b ≤ 100 := by
  unfold matchB at h
  cases hd : hammingDistance a b with
  | none => rw [hd] at h; simp at h
  | some d =>
    rw [hd] at h
    have h70 : 70 ≤ pctOf (maxBits a b) d := by simpa using h
    unfold pctD
    rw [hd]
    simp only [Option.getD_some]
    exact ⟨h70, pctOf_le_100 _ _⟩

lemma round2_ge70 {q : ℚ} (h : 70 ≤ q) : 70 ≤ round2 q := by
  unfold round2
  rw [ratFloor_eq_intFloor]
  have h1 : (7000 : ℤ) ≤ ⌊q * 100 + 1 / 2⌋ := by
    rw [Int.le_floor]
    push_cast
    linarith
  rw [le_div_iff₀ (by norm_num : (0 : ℚ) < 100)]
  calc (70 : ℚ) * 100 = ((7000 : ℤ) : ℚ) := by norm_num
    _ ≤ (⌊q * 100 + 1 / 2⌋ : ℚ) := by exact_mod_cast h1

lemma round2_le100 {q : ℚ} (h : q ≤ 100) : round2 q ≤ 100 := by
  unfold round2
  rw [ratFloor_eq_intFloor]
  have h1 : ⌊q * 100 + 1 / 2⌋ ≤ 10000 := by
    have h2 : ⌊q * 100 + 1 / 2⌋ < 10001 := by
      rw [Int.floor_lt]
      push_cast
      linarith
    omega
  rw [div_le_iff₀ (by norm_num : (0 : ℚ) < 100)]
  calc (⌊q * 100 + 1 / 2⌋ : ℚ) ≤ ((10000 : ℤ) : ℚ) := by exact_mod_cast h1
    _ = 100 * 100 := by norm_num

/-- C9: every warning row the engine persists (beyond those already in
the store) carries a similarity percentage that equals the computed
percentage for its candidate rounded to two decimals, and lies between
0 and 100 — in fact at least 70, since rows are only written for
threshold-crossing comparisons and the distance is nonnegative. -/
theorem c9_persisted_warning_bounds (audioId : Nat) (fp fn : String)
    (cands : List CandRow) (ws : List WRow) :
    ∀ w ∈ (findSimilar audioId fp fn cands ws).1,
      w ∈ ws ∨
        (0 ≤ w.similarity_percent ∧ 70 ≤ w.similarity_percent ∧
         w.similarity_percent ≤ 100 ∧
         ∃ c ∈ cands, matchB fp c.perceptual_hash = true ∧
           w.similarity_percent = round2 (pctD fp c.perceptual_hash)) := by
  induction cands generalizing ws with
  | nil => intro w hw; exact Or.inl hw
  | cons c rest ih =>
    intro w hw
    by_cases h : matchB fp c.perceptual_hash
    · simp only [findSimilar, h, if_true] at hw
      rcases mem_insertWarning hw with hmem | rfl
      · exact Or.inl hmem
      · right
        obtain ⟨h70, h100⟩ := matchB_spec h
        exact ⟨by linarith [round2_ge70 h70], round2_ge70 h70, round2_le100 h100,
          c, by simp, h, rfl⟩
    · simp only [findSimilar, h, if_false] at hw
      rcases ih ws w hw with hmem | ⟨h0, h70, h100, c', hc', hm, he⟩
      · exact Or.inl hmem
      · exact Or.inr ⟨h0, h70, h100, c', by simp [hc'], hm, he⟩

lemma processUpload_dup (sha : List Nat → String) (freshId : Nat) (tempUuid : String)
    (file : FileInfo) (s : Sys)
    (hD : ∃ r ∈ s.audio_files, r.content_hash = sha file.content) :
    (processUpload sha freshId tempUuid file s).1 = ⟨true, none⟩ ∧
    (processUpload sha freshId tempUuid file s).2.audio_files = s.audio_files := by
  obtain ⟨r, hr, hh⟩ := hD
  have hany : s.audio_files.any (fun r => r.content_hash == sha file.content) = true :=
    List.any_eq_true.mpr ⟨r, hr, by simp [hh]⟩
  unfold processUpload
  simp [hany]

lemma processUpload_new (sha : List Nat → String) (freshId : Nat) (tempUuid : String)
    (file : FileInfo) (s : Sys)
    (hD : ∀ r ∈ s.audio_files, r.content_hash ≠ sha file.content) :
    (processUpload sha freshId tempUuid file s).1 = ⟨false, some freshId⟩ ∧
    (processUpload sha freshId tempUuid file s).2.audio_files =
      s.audio_files ++
        [⟨freshId, sha file.content, sha file.content ++ "_" ++ file.originalname,
          file.originalname, file.size, file.mimetype, none, none, "pending"⟩] := by
  have hany : s.audio_files.any (fun r => r.content_hash == sha file.content) = false := by
    rw [List.any_eq_false]
    intro r hr
    simpa using hD r hr
  unfold processUpload
  simp [hany]

lemma runUploads_all_dup (sha : List Nat → String) (D : String) :
    ∀ (calls : List UploadCall) (s : Sys),
      (∀ c ∈ calls, sha c.file.content = D) →
      (∃ r ∈ s.audio_files, r.content_hash = D) →
      (∀ res ∈ (runUploads sha calls s).1, res = ⟨true, none⟩) ∧
      (runUploads sha calls s).2.audio_files = s.audio_files := by
  intro calls
  induction calls with
  | nil =>
    intro s _ _
    exact ⟨fun res h => by simp [runUploads] at h, rfl⟩
  | cons c rest ih =>
    intro s hall hex
    have hc : sha c.file.content = D := hall c (by simp)
    have hdup := processUpload_dup sha c.freshId c.tempUuid c.file s (by rw [hc]; exact hex)
    have hex2 : ∃ r ∈ (processUpload sha c.freshId c.tempUuid c.file s).2.audio_files,
        r.content_hash = D := by rw [hdup.2]; exact hex
    have ihr := ih (processUpload sha c.freshId c.tempUuid c.file s).2
      (fun x hx => hall x (by simp [hx])) hex2
    constructor
    · intro res hres
      simp only [runUploads, List.mem_cons] at hres
      rcases hres with rfl | hres
      · exact hdup.1
      · exact ihr.1 res hres
    · show (runUploads sha (c :: rest) s).2.audio_files = s.audio_files
      simp only [runUploads]
      rw [ihr.2, hdup.2]

lemma runUploads_length (sha : List Nat → String) :
    ∀ (calls : List UploadCall) (s : Sys),
      (runUploads sha calls s).1.length = calls.length := by
  intro calls
  induction calls with
  | nil => intro s; rfl
  | cons c rest ih => intro s; simp [runUploads, ih]

/-- C1: under any number of same-digest admission attempts — any
serialization of concurrent `processUpload` calls whose bytes hash to
the digest `D`, against a ledger not yet containing `D` — exactly one
call returns the accepted result (`duplicate = false`, with an
artifact id), every other call returns `duplicate = true`, and the
ledger afterwards contains exactly one row whose `content_hash` is
`D`. -/
theorem c1_concurrent_admission (sha : List Nat → String) (D : String)
    (calls : List UploadCall) (s : Sys)
    (hne : calls ≠ [])
    (hall : ∀ c ∈ calls, sha c.file.content = D)
    (h0 : ∀ r ∈ s.audio_files, r.content_hash ≠ D) :
    (runUploads sha calls s).1.countP (fun r => !r.duplicate) = 1 ∧
    (runUploads sha calls s).1.countP (fun r => r.duplicate) = calls.length - 1 ∧
    (∀ r ∈ (runUploads sha calls s).1, r.duplicate = false → r.audioId.isSome = true) ∧
    (runUploads sha calls s).2.audio_files.countP (fun r => r.content_hash == D) = 1 := by
  match calls, hne with
  | [], h => exact absurd rfl h
  | c :: rest, _ =>
    have hc : sha c.file.content = D := hall c (by simp)
    have hnew := processUpload_new sha c.freshId c.tempUuid c.file s
      (by rw [hc]; exact fun r hr => h0 r hr)
    set s1 := (processUpload sha c.freshId c.tempUuid c.file s).2 with hs1
    have hex : ∃ r ∈ s1.audio_files, r.content_hash = D := by
      rw [hs1, hnew.2]
      refine ⟨⟨c.freshId, sha c.file.content,
        sha c.file.content ++ "_" ++ c.file.originalname, c.file.originalname,
        c.file.size, c.file.mimetype, none, none, "pending"⟩, ?_, hc⟩
      simp
    have hdup := runUploads_all_dup sha D rest s1 (fun x hx => hall x (by simp [hx])) hex
    have hres : (runUploads sha (c :: rest) s).1 =
        ⟨false, some c.freshId⟩ :: (runUploads sha rest s1).1 := by
      simp only [runUploads]
      rw [hnew.1]
    have hrest0 : (runUploads sha rest s1).1.countP (fun r => !r.duplicate) = 0 := by
      rw [List.countP_eq_zero]
      intro res hres2
      rw [hdup.1 res hres2]
      simp
    have hrestAll : (runUploads sha rest s1).1.countP (fun r => r.duplicate) =
        (runUploads sha rest s1).1.length := by
      rw [List.countP_eq_length]
      intro res hres2
      rw [hdup.1 res hres2]
    refine ⟨?_, ?_, ?_, ?_⟩
    · rw [hres, List.countP_cons]
      simp [hrest0]
    · rw [hres, List.countP_cons]
      simp only [hrestAll, runUploads_length]
      simp
    · intro r hr hdupl
      rw [hres] at hr
      rcases List.mem_cons.mp hr with rfl | hr
      · rfl
      · rw [hdup.1 r hr] at hdupl
        simp at hdupl
    · have hfin : (runUploads sha (c :: rest) s).2.audio_files = s1.audio_files := by
        simp only [runUploads]
        exact hdup.2
      rw [hfin, hs1, hnew.2, List.countP_append]
      have hz : s.audio_files.countP (fun r => r.content_hash == D) = 0 := by
        rw [List.countP_eq_zero]
        intro r hr
        simpa using h0 r hr
      rw [hz, List.countP_cons]
      simp [hc]

theorem c1_concurrent_admission_witness :
    ((runUploads (fun l => if l = [9] then "D" else "E")
        [⟨1, "t1", ⟨[9], "x.mp3", "audio/mpeg", 1⟩⟩,
         ⟨2, "t2", ⟨[9], "y.mp3", "audio/wav", 1⟩⟩,
         ⟨3, "t3", ⟨[9], "z.mp3", "audio/mpeg", 1⟩⟩]
        ⟨[], [], [], [], []⟩).1.countP (fun r => !r.duplicate) = 1) ∧
    ((runUploads (fun l => if l = [9] then "D" else "E")
        [⟨1, "t1", ⟨[9], "x.mp3", "audio/mpeg", 1⟩⟩,
         ⟨2, "t2", ⟨[9], "y.mp3", "audio/wav", 1⟩⟩,
         ⟨3, "t3", ⟨[9], "z.mp3", "audio/mpeg", 1⟩⟩]
        ⟨[], [], [], [], []⟩).1.countP (fun r => r.duplicate) = 3 - 1) ∧
    (∀ r ∈ (runUploads (fun l => if l = [9] then "D" else "E")
        [⟨1, "t1", ⟨[9], "x.mp3", "audio/mpeg", 1⟩⟩,
         ⟨2, "t2", ⟨[9], "y.mp3", "audio/wav", 1⟩⟩,
         ⟨3, "t3", ⟨[9], "z.mp3", "audio/mpeg", 1⟩⟩]
        ⟨[], [], [], [], []⟩).1, r.duplicate = false → r.audioId.isSome = true) ∧
    ((runUploads (fun l => if l = [9] then "D" else "E")
        [⟨1, "t1", ⟨[9], "x.mp3", "audio/mpeg", 1⟩⟩,
         ⟨2, "t2", ⟨[9], "y.mp3", "audio/wav", 1⟩⟩,
         ⟨3, "t3", ⟨[9], "z.mp3", "audio/mpeg", 1⟩⟩]
        ⟨[], [], [], [], []⟩).2.audio_files.countP (fun r => r.content_hash == "D") = 1) := by
  have h := c1_concurrent_admission (fun l => if l = [9] then "D" else "E") "D"
    [⟨1, "t1", ⟨[9], "x.mp3", "audio/mpeg", 1⟩⟩,
     ⟨2, "t2", ⟨[9], "y.mp3", "audio/wav", 1⟩⟩,
     ⟨3, "t3", ⟨[9], "z.mp3", "audio/mpeg", 1⟩⟩]
    ⟨[], [], [], [], []⟩ (by simp) (by decide) (by decide)
  exact ⟨h.1, h.2.1, h.2.2.1, h.2.2.2⟩

lemma processUpload_has_hash (sha : List Nat → String) (freshId : Nat)
    (tempUuid : String) (file : FileInfo) (s : Sys) :
    ∃ r ∈ (processUpload sha freshId tempUuid file s).2.audio_files,
      r.content_hash = sha file.content := by
  by_cases h : ∃ r ∈ s.audio_files, r.content_hash = sha file.content
  · obtain ⟨r, hr, hh⟩ := h
    have hd := processUpload_dup sha freshId tempUuid file s ⟨r, hr, hh⟩
    rw [hd.2]
    exact ⟨r, hr, hh⟩
  · push_neg at h
    have hn := processUpload_new sha freshId tempUuid file s h
    rw [hn.2]
    refine ⟨⟨freshId, sha file.content,
      sha file.content ++ "_" ++ file.originalname, file.originalname,
      file.size, file.mimetype, none, none, "pending"⟩, ?_, rfl⟩
    simp

lemma uploadAudio_sys (sha : List Nat → String) (freshId : Nat) (tempUuid : String)
    (f : FileInfo) (s : Sys) (h : isSupportedAudio f.mimetype = true) :
    (uploadAudio sha freshId tempUuid (some f) s).2.2 =
      (processUpload sha freshId tempUuid f s).2 := by
  cases hb : (processUpload sha freshId tempUuid f s).1.duplicate <;>
    simp [uploadAudio, h, hb]

/-- C10: the admission decision is a function of the submitted bytes
and the prior ledger only — the digest is computed from the byte
stream alone, so a second submission with byte-identical content is
reported as a duplicate (HTTP 409, `duplicate = true`) whatever its
filename, declared (allow-listed) MIME type, or reported size. -/
theorem c10_digest_only_admission (sha : List Nat → String) (s : Sys)
    (f1 f2 : FileInfo) (id1 id2 : Nat) (tn1 tn2 : String)
    (h1 : isSupportedAudio f1.mimetype = true)
    (h2 : isSupportedAudio f2.mimetype = true)
    (hc : f2.content = f1.content) :
    (uploadAudio sha id2 tn2 (some f2) (uploadAudio sha id1 tn1 (some f1) s).2.2).1 = 409 ∧
    (uploadAudio sha id2 tn2 (some f2) (uploadAudio sha id1 tn1 (some f1) s).2.2).2.1 =
      some ⟨true, none⟩ := by
  rw [uploadAudio_sys sha id1 tn1 f1 s h1]
  have hex : ∃ r ∈ (processUpload sha id1 tn1 f1 s).2.audio_files,
      r.content_hash = sha f2.content := by
    rw [hc]
    exact processUpload_has_hash sha id1 tn1 f1 s
  have hd := processUpload_dup sha id2 tn2 f2 _ hex
  constructor <;> simp [uploadAudio, h2, hd.1]

theorem c10_digest_only_admission_witness :
    ((uploadAudio (fun l => if l = [9] then "D" else "E") 2 "t2"
        (some ⟨[9], "b.wav", "audio/wav", 7⟩)
        (uploadAudio (fun l => if l = [9] then "D" else "E") 1 "t1"
          (some ⟨[9], "a.mp3", "audio/mpeg", 5⟩) ⟨[], [], [], [], []⟩).2.2).1 = 409) ∧
    ((uploadAudio (fun l => if l = [9] then "D" else "E") 2 "t2"
        (some ⟨[9], "b.wav", "audio/wav", 7⟩)
        (uploadAudio (fun l => if l = [9] then "D" else "E") 1 "t1"
          (some ⟨[9], "a.mp3", "audio/mpeg", 5⟩) ⟨[], [], [], [], []⟩).2.2).2.1 =
      some ⟨true, none⟩) :=
  c10_digest_only_admission (fun l => if l = [9] then "D" else "E")
    ⟨[], [], [], [], []⟩ ⟨[9], "a.mp3", "audio/mpeg", 5⟩ ⟨[9], "b.wav", "audio/wav", 7⟩
    1 2 "t1" "t2" (by decide) (by decide) rfl

theorem c9_persisted_warning_bounds_witness :
    (⟨1, 2, "f", "g", 70⟩ : WRow) ∈ ([] : List WRow) ∨
      (0 ≤ (⟨1, 2, "f", "g", 70⟩ : WRow).similarity_percent ∧
       70 ≤ (⟨1, 2, "f", "g", 70⟩ : WRow).similarity_percent ∧
       (⟨1, 2, "f", "g", 70⟩ : WRow).similarity_percent ≤ 100 ∧
       ∃ c ∈ [(⟨2, "//8DAAAAAA", "g"⟩ : CandRow)],
         matchB "AAAAAAAAAA" c.perceptual_hash = true ∧
         (⟨1, 2, "f", "g", 70⟩ : WRow).similarity_percent =
           round2 (pctD "AAAAAAAAAA" c.perceptual_hash)) :=
  c9_persisted_warning_bounds 1 "AAAAAAAAAA" "f" [⟨2, "//8DAAAAAA", "g"⟩] []
    ⟨1, 2, "f", "g", 70⟩ (by decide)

end AudioDedup
